import Mathlib

/-!
Shallow embedding of the storage/caching subsystem of ModularDashboard
(`src/modular_dashboard/utils/storage.py`,
`src/modular_dashboard/utils/system_monitor.py`,
`src/modular_dashboard/utils/compressed_cache.py`).

Python dictionaries are modelled as insertion-ordered association lists
(`Dict`), `datetime` timestamps as natural numbers, and Python's `None`
sentinel on reads as `Option.none`.  Each mutating method becomes a pure
function from the old object state to the new one; methods that both
return a value and mutate state return a pair.  Library primitives that
are external to the repository (`pickle`, `gzip`, `json` codecs,
`sys.getsizeof`, the `psutil` sampler) are abstracted as parameters.
-/

set_option autoImplicit false

namespace ModularDashboard

variable {V : Type}

/-- A Python `dict[str, V]`: an association list with insertion order,
unique keys in every state reachable by the `dict` operations. -/
abbrev Dict (V : Type) := List (String × V)

/-- Models `d.get(k)` / `d[k]` lookup: first binding of `k`, if any. -/
def dictGet : Dict V → String → Option V
  | [], _ => none
  | (k', v) :: rest, k => if k' = k then some v else dictGet rest k

/-- Models `k in d`. -/
def dictContains (d : Dict V) (k : String) : Bool :=
  (dictGet d k).isSome

/-- Models `d[k] = v`: update in place if the key is present (keeping its
insertion position, as Python dicts do), otherwise append. -/
def dictSet : Dict V → String → V → Dict V
  | [], k, v => [(k, v)]
  | (k', v') :: rest, k, v =>
      if k' = k then (k, v) :: rest else (k', v') :: dictSet rest k v

/-- Models `del d[k]`: drop the binding of `k`. -/
def dictDelete : Dict V → String → Dict V
  | [], _ => []
  | (k', v') :: rest, k =>
      if k' = k then dictDelete rest k else (k', v') :: dictDelete rest k

/-- Models `list(d.keys())`. -/
def dictKeys (d : Dict V) : List String :=
  d.map (·.1)

/-- Models `list.remove(k)` on a Python list: drop the first occurrence. -/
def listRemove : List String → String → List String
  | [], _ => []
  | x :: rest, k => if x = k then rest else x :: listRemove rest k

/-- A cache entry as built by `CachedStorage.set`: the payload plus the
`expires_at` / `created_at` timestamps.  `expires_at` is `Option` because
`CachedStorage._is_expired` explicitly handles entries that lack the
`"expires_at"` field (treating them as expired). -/
structure CacheEntry (V : Type) where
  value : V
  expires_at : Option Nat
  created_at : Nat
deriving Repr, DecidableEq

/-- The `CachedStorage` object state: the wrapped backend's `_data` dict,
the constructor parameters, the hot map `_cache`, the LRU list
`_access_order`, and the `_stats` counters. -/
structure CachedStorage (V : Type) where
  backend : Dict (CacheEntry V)
  default_ttl : Nat
  max_entries : Nat
  cache : Dict (CacheEntry V)
  access_order : List String
  hits : Nat
  misses : Nat
  evictions : Nat
  memory_usage : Nat
deriving Repr, DecidableEq

/-- Models `CachedStorage.__init__(backend, default_ttl, max_entries)`. -/
def CachedStorage.init (V : Type) (backend : Dict (CacheEntry V))
    (default_ttl max_entries : Nat) : CachedStorage V :=
  { backend := backend, default_ttl := default_ttl, max_entries := max_entries,
    cache := [], access_order := [], hits := 0, misses := 0, evictions := 0,
    memory_usage := 0 }

/-- Models `CachedStorage._is_expired`: `True` when the `"expires_at"` field is
missing, otherwise `datetime.now() > expires_at`. -/
def isExpired {V : Type} (now : Nat) (e : CacheEntry V) : Bool :=
  match e.expires_at with
  | none => true
  | some t => decide (t < now)

/-- The spec's wording for an expired entry: the entry lacks an
`expires_at`, or `now` is strictly past it. -/
def EntryExpiredSpec {V : Type} (now : Nat) (e : CacheEntry V) : Prop :=
  e.expires_at = none ∨ ∃ t, e.expires_at = some t ∧ t < now

instance {V : Type} (now : Nat) (e : CacheEntry V) :
    Decidable (EntryExpiredSpec now e) :=
  decidable_of_iff (isExpired now e = true) (by
    unfold EntryExpiredSpec isExpired
    cases he : e.expires_at with
    | none => simp
    | some t => simp)

/-- Models `CachedStorage._get_cache_key`: prefix the key with `cache_`. -/
def getCacheKey (key : String) : String :=
  "cache_" ++ key

/-- Models `key.startswith("cache_")` (used by `CachedStorage.clear`), written
over character lists so that it evaluates by kernel reduction. -/
def isCachePrefixed (k : String) : Bool :=
  k.toList.take 6 == "cache_".toList

/-- Models `CachedStorage._update_access_order`: drop the key's first occurrence
from `_access_order` if present, then append it at the tail. -/
def CachedStorage.updateAccessOrder (s : CachedStorage V) (key : String) :
    CachedStorage V :=
  { s with access_order := listRemove s.access_order key ++ [key] }

/-- Models `CachedStorage._remove_from_cache`: delete the key from the hot map
and from the LRU list. -/
def CachedStorage.removeFromCache (s : CachedStorage V) (key : String) :
    CachedStorage V :=
  { s with cache := dictDelete s.cache key,
           access_order := listRemove s.access_order key }

/-- One iteration of the loop in `CachedStorage.cleanup_lru`:
`_remove_from_cache(key)` followed by `_stats["evictions"] += 1`. -/
def CachedStorage.evictStep (s : CachedStorage V) (key : String) :
    CachedStorage V :=
  let t := s.removeFromCache key
  { t with evictions := t.evictions + 1 }

/-- Models `CachedStorage.cleanup_lru(count)`: default `count` is 10% of the hot
map (at least 1); remove the first `count` keys of `_access_order`
(snapshotted before the loop), counting each as an eviction. -/
def CachedStorage.cleanupLru (s : CachedStorage V) (count : Option Nat) :
    CachedStorage V :=
  let count := match count with
    | none => max 1 (s.cache.length / 10)
    | some c => c
  let keys_to_remove := s.access_order.take count
  keys_to_remove.foldl CachedStorage.evictStep s

/-- Models `CachedStorage._ensure_cache_space`: when the hot map is at or above
`max_entries`, evict `min(10, len - max_entries + 1)` LRU entries. -/
def CachedStorage.ensureCacheSpace (s : CachedStorage V) : CachedStorage V :=
  if s.max_entries ≤ s.cache.length then
    s.cleanupLru (some (min 10 (s.cache.length - s.max_entries + 1)))
  else s

/-- The `ttl = ttl or self.default_ttl` line of `CachedStorage.set`:
Python truthiness makes both `None` and `0` fall back to the default. -/
def setTtl (s : CachedStorage V) (ttl : Option Nat) : Nat :=
  match ttl with
  | some t => if t = 0 then s.default_ttl else t
  | none => s.default_ttl

/-- The `cache_entry` dict built by `CachedStorage.set`. -/
def setEntry (s : CachedStorage V) (now : Nat) (value : V) (ttl : Option Nat) :
    CacheEntry V :=
  { value := value, expires_at := some (now + setTtl s ttl), created_at := now }

/-- Models `CachedStorage.set(key, value, ttl)`: build the entry with
`expires_at = now + (ttl or default_ttl)`, make room, store into the hot
map, touch the LRU order, and persist the same entry into the backend. -/
def CachedStorage.set (s : CachedStorage V) (now : Nat) (key : String)
    (value : V) (ttl : Option Nat) : CachedStorage V :=
  let cache_key := getCacheKey key
  let cache_entry := setEntry s now value ttl
  let s1 := s.ensureCacheSpace
  let s2 := { s1 with cache := dictSet s1.cache cache_key cache_entry }
  let s3 := s2.updateAccessOrder cache_key
  { s3 with backend := dictSet s3.backend cache_key cache_entry }

/-- The second half of `CachedStorage.get`: consult the backend; if it
holds the key and the entry is not expired, restore it into the hot map
and return its value; otherwise fall through to the default (`none`). -/
def CachedStorage.getFromBackend (s : CachedStorage V) (now : Nat)
    (cache_key : String) : Option V × CachedStorage V :=
  match dictGet s.backend cache_key with
  | some cache_data =>
      if isExpired now cache_data then (none, s)
      else (some cache_data.value,
            { s with cache := dictSet s.cache cache_key cache_data })
  | none => (none, s)

/-- Models `CachedStorage.get(key, default)`: check the hot map first (returning
the value if unexpired, deleting the entry if expired), then the backend.
A `none` result models returning the caller-supplied default. -/
def CachedStorage.get (s : CachedStorage V) (now : Nat) (key : String) :
    Option V × CachedStorage V :=
  let cache_key := getCacheKey key
  match dictGet s.cache cache_key with
  | some cache_entry =>
      if isExpired now cache_entry then
        CachedStorage.getFromBackend
          { s with cache := dictDelete s.cache cache_key } now cache_key
      else (some cache_entry.value, s)
  | none => CachedStorage.getFromBackend s now cache_key

/-- Models `CachedStorage.delete(key)`: remove from the hot map, then from the
backend; the returned flag is the backend's (true iff the key existed
there). -/
def CachedStorage.delete (s : CachedStorage V) (key : String) :
    Bool × CachedStorage V :=
  let cache_key := getCacheKey key
  let s1 := { s with cache := dictDelete s.cache cache_key }
  (dictContains s1.backend cache_key,
   { s1 with backend := dictDelete s1.backend cache_key })

/-- The loop in `CachedStorage.clear`: iterate over a snapshot of the
backend's keys and delete every key starting with `cache_`. -/
def clearBackendFold : Dict V → List String → Dict V
  | d, [] => d
  | d, k :: ks =>
      clearBackendFold (if isCachePrefixed k then dictDelete d k else d) ks

/-- Models `CachedStorage.clear()`: drop the hot map and LRU list, reset the
statistics, and delete every `cache_`-prefixed key from the backend. -/
def CachedStorage.clear (s : CachedStorage V) : CachedStorage V :=
  { s with cache := [], access_order := [],
           hits := 0, misses := 0, evictions := 0, memory_usage := 0,
           backend := clearBackendFold s.backend (dictKeys s.backend) }

/-- Models `CachedStorage.cleanup_expired(now)`: collect the expired hot keys,
then remove each from the hot map and LRU list. -/
def CachedStorage.cleanupExpired (s : CachedStorage V) (now : Nat) :
    CachedStorage V :=
  let expired_keys := (s.cache.filter (fun kv => isExpired now kv.2)).map (·.1)
  expired_keys.foldl CachedStorage.removeFromCache s

/-- The `hit_rate` field of `CachedStorage.get_stats()`:
`hits / (hits + misses)` when the denominator is positive, else `0.0`. -/
def CachedStorage.hitRate (s : CachedStorage V) : ℚ :=
  if 0 < s.hits + s.misses then (s.hits : ℚ) / ((s.hits : ℚ) + (s.misses : ℚ))
  else 0

/-- One public `CachedStorage` operation, for stating invariants over
arbitrary operation sequences. -/
inductive CacheOp (V : Type) where
  | get (now : Nat) (key : String)
  | set (now : Nat) (key : String) (value : V) (ttl : Option Nat)
  | delete (key : String)
  | clear
  | cleanupExpired (now : Nat)
  | cleanupLru (count : Option Nat)

/-- Apply one public operation to the cache state. -/
def CachedStorage.run (s : CachedStorage V) : CacheOp V → CachedStorage V
  | .get now key => (s.get now key).2
  | .set now key value ttl => s.set now key value ttl
  | .delete key => (s.delete key).2
  | .clear => s.clear
  | .cleanupExpired now => s.cleanupExpired now
  | .cleanupLru count => s.cleanupLru count

/-- The arguments of one `CachedStorage.set` call. -/
structure SetCall (V : Type) where
  now : Nat
  key : String
  value : V
  ttl : Option Nat

/-- Apply a sequence of `set` calls in order. -/
def CachedStorage.runSets (s : CachedStorage V) (ops : List (SetCall V)) :
    CachedStorage V :=
  ops.foldl (fun t op => t.set op.now op.key op.value op.ttl) s

/-- Well-formedness of the LRU bookkeeping: `_access_order` has no
duplicates and holds exactly the hot map's keys.  This holds in every
state reachable by `set` calls. -/
def LruWF (s : CachedStorage V) : Prop :=
  s.access_order.Nodup ∧
  ∀ k, k ∈ s.access_order ↔ (dictGet s.cache k).isSome = true

/-- The two-tier containment invariant: every hot-map key is present in
the backend. -/
def HotSubset (s : CachedStorage V) : Prop :=
  ∀ k, (dictGet s.cache k).isSome = true → (dictGet s.backend k).isSome = true

/-- The `PickleFileBackend` object state: the persisted file (`none`
models a missing or unreadable file, `some d` a file whose unpickling
yields `d`) and the in-memory `_data` dict. -/
structure PickleFileBackend (V : Type) where
  file : Option (Dict V)
  data : Dict V
deriving Repr, DecidableEq

/-- Models `PickleFileBackend.__init__` / `_load`: start empty, then load the
whole pickled dict from the file when it exists (a missing or corrupt
file leaves the empty dict). -/
def pickleOpen {V : Type} (file : Option (Dict V)) : PickleFileBackend V :=
  { file := file, data := match file with | some d => d | none => [] }

/-- Models `PickleFileBackend._save`: rewrite the whole file from `_data`
(modelling the successful case; OS errors are swallowed by the code). -/
def PickleFileBackend.save (b : PickleFileBackend V) : PickleFileBackend V :=
  { b with file := some b.data }

/-- Models `PickleFileBackend.set`: update `_data`, then `_save`. -/
def PickleFileBackend.set (b : PickleFileBackend V) (k : String) (v : V) :
    PickleFileBackend V :=
  ({ b with data := dictSet b.data k v }).save

/-- Models `PickleFileBackend.delete`: when the key exists, remove it, `_save`,
and return `True`; otherwise return `False`. -/
def PickleFileBackend.delete (b : PickleFileBackend V) (k : String) :
    Bool × PickleFileBackend V :=
  if dictContains b.data k then
    (true, ({ b with data := dictDelete b.data k }).save)
  else (false, b)

/-- Models `PickleFileBackend.clear`: `self._data.clear()` and nothing else —
the `self._save()` call in the source sits after the `return` statement
of `keys()` and is unreachable, so the file is not rewritten. -/
def PickleFileBackend.clear (b : PickleFileBackend V) : PickleFileBackend V :=
  { b with data := [] }

/-- Models `PickleFileBackend.keys`: the keys of `_data` (the trailing
`self._save()` in the source is dead code after the `return`). -/
def PickleFileBackend.keys (b : PickleFileBackend V) : List String :=
  dictKeys b.data

/-- A cleanup callback registered with the `MemoryMonitor`, abstracted to
an identifier plus whether invoking it raises. -/
structure CleanupCallback where
  id : Nat
  fails : Bool

/-- The `for callback in callbacks` loop of
`MemoryMonitor._trigger_cleanup`: every callback is invoked (first
component, in order); a raising callback has its exception caught and
logged (second component) and the loop continues. -/
def runCallbacks : List CleanupCallback → List Nat × List Nat
  | [] => ([], [])
  | c :: rest =>
      let r := runCallbacks rest
      (c.id :: r.1, if c.fails then c.id :: r.2 else r.2)

/-- The observable outcome of `MemoryMonitor._trigger_cleanup`. -/
structure CleanupResult where
  invoked : List Nat
  logged_errors : List Nat
  gc_collected : Bool
  last_cleanup : Option Nat
deriving Repr, DecidableEq

/-- Models `MemoryMonitor.should_cleanup`: `False` without `psutil`, otherwise
compare the sampled usage percent against
`config.memory_threshold_percent`.  Percentages are modelled as exact
rationals. -/
def MemoryMonitor.shouldCleanup (hasPsutil : Bool) (memory_percent threshold : ℚ) :
    Bool :=
  if hasPsutil then decide (threshold ≤ memory_percent) else false

/-- Models `MemoryMonitor._trigger_cleanup`: run every callback under
try/except, then `gc.collect()` and record `stats.last_cleanup`. -/
def MemoryMonitor.triggerCleanup (callbacks : List CleanupCallback) (now : Nat) :
    CleanupResult :=
  let r := runCallbacks callbacks
  { invoked := r.1, logged_errors := r.2, gc_collected := true,
    last_cleanup := some now }

/-- One iteration of `MemoryMonitor._monitor_loop`: trigger a cleanup
exactly when `should_cleanup()` holds. -/
def MemoryMonitor.monitorCycle (hasPsutil : Bool) (memory_percent threshold : ℚ)
    (callbacks : List CleanupCallback) (now : Nat) : Option CleanupResult :=
  if MemoryMonitor.shouldCleanup hasPsutil memory_percent threshold then
    some (MemoryMonitor.triggerCleanup callbacks now)
  else none

/-- Models `CompressedCacheEntry.__init__`: keeps the original object, the
compressed bytes (modelled as byte lists), both sizes, and the ratio. -/
structure CompressedCacheEntry (α : Type) where
  original_data : α
  compressed_data : List Nat
  original_size : Nat
  compressed_size : Nat
  compression_ratio : ℚ

/-- The `CompressedCache.__init__` parameters from
`compressed_cache.py`. -/
structure CompressedCacheConfig where
  compression_threshold : Nat
  compression_level : Nat
  max_entry_size : Nat

/-- Models `CompressedCache.should_compress`: `sys.getsizeof(obj)` (passed in as
the already-sampled size) is at least the threshold and at most the
maximum entry size. -/
def CompressedCache.shouldCompress (cfg : CompressedCacheConfig) (size : Nat) :
    Bool :=
  decide (cfg.compression_threshold ≤ size) && decide (size ≤ cfg.max_entry_size)

/-- Models `CompressedCache.compress`: `pickle.dumps` the object, record the
serialized length, `gzip.compress` at the configured level, and build the
entry.  The `pickle`/`gzip` primitives are abstract parameters. -/
def CompressedCache.compress {α : Type} (pickleDumps : α → List Nat)
    (gzipCompress : Nat → List Nat → List Nat) (cfg : CompressedCacheConfig)
    (obj : α) : CompressedCacheEntry α :=
  let serialized := pickleDumps obj
  let original_size := serialized.length
  let compressed := gzipCompress cfg.compression_level serialized
  { original_data := obj, compressed_data := compressed,
    original_size := original_size, compressed_size := compressed.length,
    compression_ratio :=
      if 0 < original_size then (compressed.length : ℚ) / (original_size : ℚ)
      else 1 }

/-- Models `CompressedCache.decompress`: `gzip.decompress` the stored bytes,
then `pickle.loads`; either primitive may fail. -/
def CompressedCache.decompress {α : Type} (pickleLoads : List Nat → Option α)
    (gzipDecompress : List Nat → Option (List Nat))
    (e : CompressedCacheEntry α) : Option α :=
  (gzipDecompress e.compressed_data).bind pickleLoads

/-- Models `JsonCompressedCache.compress`: identical shape, but serializes via
`json.dumps(...).encode("utf-8")` (abstracted as `jsonDumps`). -/
def JsonCompressedCache.compress {α : Type} (jsonDumps : α → List Nat)
    (gzipCompress : Nat → List Nat → List Nat) (cfg : CompressedCacheConfig)
    (obj : α) : CompressedCacheEntry α :=
  let serialized := jsonDumps obj
  let original_size := serialized.length
  let compressed := gzipCompress cfg.compression_level serialized
  { original_data := obj, compressed_data := compressed,
    original_size := original_size, compressed_size := compressed.length,
    compression_ratio :=
      if 0 < original_size then (compressed.length : ℚ) / (original_size : ℚ)
      else 1 }

/-- Models `JsonCompressedCache.decompress`: `gzip.decompress`, then
`json.loads(....decode("utf-8"))` (abstracted as `jsonLoads`). -/
def JsonCompressedCache.decompress {α : Type} (jsonLoads : List Nat → Option α)
    (gzipDecompress : List Nat → Option (List Nat))
    (e : CompressedCacheEntry α) : Option α :=
  (gzipDecompress e.compressed_data).bind jsonLoads

instance {α : Type} (o : Option α) (P : α → Prop) [DecidablePred P] :
    Decidable (∀ a, o = some a → P a) :=
  match o with
  | none => isTrue (by intro a h; cases h)
  | some x => decidable_of_iff (P x) (by
      constructor
      · intro h a ha
        cases ha
        exact h
      · intro h
        exact h x rfl)

/-- Concrete scenario for the eviction-ordering claim: capacity 2, insert
`a`, `b`, `c`. -/
def c1StateABC : CachedStorage Nat :=
  (((CachedStorage.init Nat [] 3600 2).set 0 "a" 1 none).set 0 "b" 2 none).set
    0 "c" 3 none

/-- Continue the scenario: `get("b")`, then insert `d`. -/
def c1StateFinal : CachedStorage Nat :=
  ((c1StateABC.get 0 "b").2).set 0 "d" 4 none

/-- Concrete scenario for the statistics claim: one `set`, then a hit. -/
def c2State : CachedStorage Nat :=
  (CachedStorage.init Nat [] 3600 10).set 0 "a" 1 none

/-- Concrete scenario for the restoration-capacity claim: capacity 1,
insert `a` then `b` (evicting `a` from the hot map only), then `get("a")`
promotes the backend copy of `a` back into the hot map. -/
def c3StateAB : CachedStorage Nat :=
  ((CachedStorage.init Nat [] 3600 1).set 0 "a" 1 none).set 0 "b" 2 none

/-- The state after the promoting `get("a")`. -/
def c3StateFinal : CachedStorage Nat :=
  (c3StateAB.get 0 "a").2

/-- Concrete expired-state for the TTL-invisibility witness: the hot map
holds an entry expired at 5, the backend an entry with no `expires_at`. -/
def c5State : CachedStorage Nat :=
  { backend := [(getCacheKey "x", { value := 2, expires_at := none, created_at := 0 })],
    default_ttl := 3600, max_entries := 10,
    cache := [(getCacheKey "x", { value := 1, expires_at := some 5, created_at := 0 })],
    access_order := [], hits := 0, misses := 0, evictions := 0, memory_usage := 0 }

/-- Concrete pickle backend holding one key, persisted by `set`. -/
def c6Backend : PickleFileBackend Nat :=
  (pickleOpen none).set "k" 1

/-- Concrete cache state for the `clear` witness: one hot entry and a
backend holding both a cache entry and a foreign, non-prefixed key. -/
def c7State : CachedStorage Nat :=
  { backend := [(getCacheKey "a", { value := 1, expires_at := some 9, created_at := 0 }),
                ("other", { value := 7, expires_at := none, created_at := 0 })],
    default_ttl := 3600, max_entries := 10,
    cache := [(getCacheKey "a", { value := 1, expires_at := some 9, created_at := 0 })],
    access_order := [getCacheKey "a"], hits := 3, misses := 4, evictions := 5,
    memory_usage := 6 }

theorem dictGet_dictSet_self (d : Dict V) (k : String) (v : V) :
    dictGet (dictSet d k v) k = some v := by
  induction d with
  | nil => simp [dictSet, dictGet]
  | cons p rest ih =>
      obtain ⟨k', v'⟩ := p
      by_cases h : k' = k <;> simp [dictSet, dictGet, h, ih]

theorem dictGet_dictSet_ne (d : Dict V) (k k' : String) (v : V) (h : k' ≠ k) :
    dictGet (dictSet d k v) k' = dictGet d k' := by
  have hne : ¬(k = k') := fun h' => h h'.symm
  induction d with
  | nil => simp [dictSet, dictGet, hne]
  | cons p rest ih =>
      obtain ⟨k₀, v₀⟩ := p
      by_cases h₀ : k₀ = k
      · subst h₀
        simp [dictSet, dictGet, hne]
      · simp [dictSet, dictGet, h₀, ih]

theorem dictGet_dictDelete_self (d : Dict V) (k : String) :
    dictGet (dictDelete d k) k = none := by
  induction d with
  | nil => simp [dictDelete, dictGet]
  | cons p rest ih =>
      obtain ⟨k₀, v₀⟩ := p
      by_cases h₀ : k₀ = k <;> simp [dictDelete, dictGet, h₀, ih]

theorem dictGet_dictDelete_ne (d : Dict V) (k k' : String) (h : k' ≠ k) :
    dictGet (dictDelete d k) k' = dictGet d k' := by
  have hne : ¬(k = k') := fun h' => h h'.symm
  induction d with
  | nil => simp [dictDelete]
  | cons p rest ih =>
      obtain ⟨k₀, v₀⟩ := p
      by_cases h₀ : k₀ = k
      · subst h₀
        simp [dictDelete, dictGet, hne, ih]
      · simp [dictDelete, dictGet, h₀, ih]

theorem dictDelete_length_le (d : Dict V) (k : String) :
    (dictDelete d k).length ≤ d.length := by
  induction d with
  | nil => simp [dictDelete]
  | cons p rest ih =>
      obtain ⟨k₀, v₀⟩ := p
      by_cases h₀ : k₀ = k <;> simp [dictDelete, h₀] <;> omega

theorem dictDelete_length_lt (d : Dict V) (k : String)
    (h : dictContains d k = true) :
    (dictDelete d k).length < d.length := by
  induction d with
  | nil => simp [dictContains, dictGet] at h
  | cons p rest ih =>
      obtain ⟨k₀, v₀⟩ := p
      by_cases h₀ : k₀ = k
      · have := dictDelete_length_le rest k
        simp [dictDelete, h₀]
        omega
      · simp [dictContains, dictGet, h₀] at h
        have := ih h
        simp [dictDelete, h₀]
        omega

theorem dictSet_length_le (d : Dict V) (k : String) (v : V) :
    (dictSet d k v).length ≤ d.length + 1 := by
  induction d with
  | nil => simp [dictSet]
  | cons p rest ih =>
      obtain ⟨k₀, v₀⟩ := p
      by_cases h₀ : k₀ = k <;> simp [dictSet, h₀] <;> omega

theorem dictGet_mem_dictKeys (d : Dict V) (k : String) (v : V)
    (h : dictGet d k = some v) : k ∈ dictKeys d := by
  induction d with
  | nil => simp [dictGet] at h
  | cons p rest ih =>
      obtain ⟨k₀, v₀⟩ := p
      by_cases h₀ : k₀ = k
      · simp [dictKeys, h₀]
      · simp [dictGet, h₀] at h
        simp [dictKeys] at ih ⊢
        exact Or.inr (ih h)

theorem listRemove_sublist (l : List String) (k : String) :
    List.Sublist (listRemove l k) l := by
  induction l with
  | nil => simp [listRemove]
  | cons x rest ih =>
      by_cases h₀ : x = k
      · simpa [listRemove, h₀] using List.sublist_cons_self x rest
      · simpa [listRemove, h₀] using List.Sublist.cons₂ x ih

theorem listRemove_nodup (l : List String) (k : String) (h : l.Nodup) :
    (listRemove l k).Nodup :=
  h.sublist (listRemove_sublist l k)

theorem mem_listRemove (l : List String) (k k' : String) (h : l.Nodup) :
    k' ∈ listRemove l k ↔ (k' ∈ l ∧ k' ≠ k) := by
  induction l with
  | nil => simp [listRemove]
  | cons x rest ih =>
      simp only [List.nodup_cons] at h
      by_cases h₀ : x = k
      · subst h₀
        simp only [listRemove, if_pos rfl]
        constructor
        · intro hmem
          exact ⟨List.mem_cons_of_mem _ hmem, fun hk => h.1 (hk ▸ hmem)⟩
        · rintro ⟨hmem, hne⟩
          rcases List.mem_cons.mp hmem with h' | h'
          · exact absurd h' hne
          · exact h'
      · simp only [listRemove, if_neg h₀, List.mem_cons]
        rw [ih h.2]
        constructor
        · rintro (h' | ⟨h', hne⟩)
          · exact ⟨Or.inl h', h' ▸ h₀⟩
          · exact ⟨Or.inr h', hne⟩
        · rintro ⟨h' | h', hne⟩
          · exact Or.inl h'
          · exact Or.inr ⟨h', hne⟩

theorem not_mem_listRemove_self (l : List String) (k : String) (h : l.Nodup) :
    k ∉ listRemove l k := by
  intro hmem
  exact ((mem_listRemove l k k h).mp hmem).2 rfl

theorem get_access_order_eq (s : CachedStorage V) (now : Nat) (key : String) :
    ((s.get now key).2).access_order = s.access_order := by
  unfold CachedStorage.get CachedStorage.getFromBackend
  cases hc : dictGet s.cache (getCacheKey key) with
  | some e =>
      by_cases he : isExpired now e
      · cases hb : dictGet s.backend (getCacheKey key) with
        | some d => by_cases hd : isExpired now d <;> simp [hc, he, hb, hd]
        | none => simp [hc, he, hb]
      · simp [hc, he]
  | none =>
      cases hb : dictGet s.backend (getCacheKey key) with
      | some d => by_cases hd : isExpired now d <;> simp [hc, hb, hd]
      | none => simp [hc, hb]

/-- C1 (counterexample): the claim's second scenario fails on the code.
With `max_entries = 2`, after `set a`, `set b`, `set c`, `get("b")`,
`set d`, it is NOT the case that `c` was evicted and `b` retained:
`CachedStorage.get` never touches `_access_order`, so `b` is still the
least-recently-written key and is the one evicted. -/
theorem c1_counterexample :
    ¬ (dictContains c1StateFinal.cache (getCacheKey "b") = true ∧
       dictContains c1StateFinal.cache (getCacheKey "c") = false) := by
  decide

/-- C1 (amended): `get` does not update the LRU recency order (for every
state, `get` leaves `_access_order` unchanged), so eviction order follows
insertion order regardless of intervening reads.  Concretely, with
`max_entries = 2`: after `set a`, `set b`, `set c`, only `b` and `c`
remain and the evictions counter is 1; after a subsequent `get("b")`
(which returns `b`'s value) and `set d`, key `b` is evicted (`c` is
retained) and the evictions counter is 2. -/
theorem c1_amended :
    (∀ (s : CachedStorage Nat) (now : Nat) (key : String),
        ((s.get now key).2).access_order = s.access_order) ∧
    dictContains c1StateABC.cache (getCacheKey "a") = false ∧
    dictContains c1StateABC.cache (getCacheKey "b") = true ∧
    dictContains c1StateABC.cache (getCacheKey "c") = true ∧
    c1StateABC.evictions = 1 ∧
    (c1StateABC.get 0 "b").1 = some 2 ∧
    dictContains c1StateFinal.cache (getCacheKey "b") = false ∧
    dictContains c1StateFinal.cache (getCacheKey "c") = true ∧
    dictContains c1StateFinal.cache (getCacheKey "d") = true ∧
    c1StateFinal.evictions = 2 := by
  refine ⟨fun s now key => get_access_order_eq s now key, ?_⟩
  decide

/-- C2 (code bug): `CachedStorage.get` serves a cache hit but records
nothing in `_stats` — no code path ever increments `hits` or `misses`, so
after one hit `get_stats()` still reports `hits = 0`, `misses = 0` and
`hit_rate = 0` instead of the claimed `H/(H+M) = 1`. -/
theorem c2_code_bug :
    (c2State.get 0 "a").1 = some 1 ∧
    ((c2State.get 0 "a").2).hits = 0 ∧
    ((c2State.get 0 "a").2).misses = 0 ∧
    CachedStorage.hitRate ((c2State.get 0 "a").2) = 0 := by
  decide

/-- C3 (counterexample): a reachable state in which a promoting `get`
leaves the hot map above `max_entries`.  With `max_entries = 1`, after
`set a`, `set b` (which evicts `a` from the hot map but not from the
backend), `get("a")` restores `a` from the backend without evicting, so
the hot map holds 2 entries. -/
theorem c3_counterexample :
    ¬ (c3StateFinal.cache.length ≤ c3StateFinal.max_entries) := by
  decide

/-- C3 (amended): restoration from the backend does not enforce capacity:
`get` never evicts (the evictions counter is unchanged) and grows the hot
map by at most the one promoted entry, so a promoting `get` can leave the
hot map exceeding `max_entries` (as the counterexample shows). -/
theorem c3_amended (s : CachedStorage V) (now : Nat) (key : String) :
    ((s.get now key).2).cache.length ≤ s.cache.length + 1 ∧
    ((s.get now key).2).evictions = s.evictions := by
  unfold CachedStorage.get CachedStorage.getFromBackend
  cases hc : dictGet s.cache (getCacheKey key) with
  | some e =>
      by_cases he : isExpired now e
      · cases hb : dictGet s.backend (getCacheKey key) with
        | some d =>
            by_cases hd : isExpired now d
            · simp [hc, he, hb, hd]
              have := dictDelete_length_le s.cache (getCacheKey key)
              omega
            · simp [hc, he, hb, hd]
              have h1 := dictSet_length_le (dictDelete s.cache (getCacheKey key))
                (getCacheKey key) d
              have h2 := dictDelete_length_le s.cache (getCacheKey key)
              omega
        | none =>
            simp [hc, he, hb]
            have := dictDelete_length_le s.cache (getCacheKey key)
            omega
      · simp [hc, he]
  | none =>
      cases hb : dictGet s.backend (getCacheKey key) with
      | some d =>
          by_cases hd : isExpired now d
          · simp [hc, hb, hd]
          · simp [hc, hb, hd]
            have := dictSet_length_le s.cache (getCacheKey key) d
            omega
      | none => simp [hc, hb]

theorem entryExpiredSpec_isExpired {now : Nat} {e : CacheEntry V}
    (h : EntryExpiredSpec now e) : isExpired now e = true := by
  rcases h with h | ⟨t, ht, hlt⟩
  · simp [isExpired, h]
  · simp [isExpired, ht, hlt]

/-- C5 (confirmed): expired entries are functionally invisible.  If every
entry the hot map or the backend holds at the key is expired in the
spec's sense (`now > expires_at`, or no `expires_at` field at all), then
`get` returns the default (`none`) and leaves no hot-map entry at the key
— in particular an expired hot-map entry has been removed. -/
theorem c5_expired_invisible (s : CachedStorage V) (now : Nat) (key : String)
    (hhot : ∀ e, dictGet s.cache (getCacheKey key) = some e →
      EntryExpiredSpec now e)
    (hback : ∀ e, dictGet s.backend (getCacheKey key) = some e →
      EntryExpiredSpec now e) :
    (s.get now key).1 = none ∧
    dictGet ((s.get now key).2).cache (getCacheKey key) = none := by
  unfold CachedStorage.get CachedStorage.getFromBackend
  cases hc : dictGet s.cache (getCacheKey key) with
  | some e =>
      have he := entryExpiredSpec_isExpired (hhot e hc)
      cases hb : dictGet s.backend (getCacheKey key) with
      | some d =>
          have hd := entryExpiredSpec_isExpired (hback d hb)
          simp [hc, he, hb, hd, dictGet_dictDelete_self]
      | none => simp [hc, he, hb, dictGet_dictDelete_self]
  | none =>
      cases hb : dictGet s.backend (getCacheKey key) with
      | some d =>
          have hd := entryExpiredSpec_isExpired (hback d hb)
          simp [hc, hb, hd]
      | none => simp [hc, hb]

/-- Witness for C5: at a concrete state whose hot entry expired at 5 and
whose backend entry has no `expires_at`, `get` at time 10 returns the
default and removes the hot entry. -/
theorem c5_witness :
    (c5State.get 10 "x").1 = none ∧
    dictGet ((c5State.get 10 "x").2).cache (getCacheKey "x") = none :=
  c5_expired_invisible c5State 10 "x" (by decide) (by decide)

theorem clearBackendFold_get_of_not_prefixed (ks : List String) (d : Dict V)
    (k : String) (h : isCachePrefixed k = false) :
    dictGet (clearBackendFold d ks) k = dictGet d k := by
  induction ks generalizing d with
  | nil => rfl
  | cons a tl ih =>
      unfold clearBackendFold
      by_cases hp : isCachePrefixed a
      · have hka : k ≠ a := fun he => by rw [he, hp] at h; cases h
        rw [if_pos hp, ih, dictGet_dictDelete_ne d a k hka]
      · rw [if_neg hp, ih]

theorem clearBackendFold_get_none (ks : List String) (d : Dict V) (k : String)
    (h : dictGet d k = none) : dictGet (clearBackendFold d ks) k = none := by
  induction ks generalizing d with
  | nil => exact h
  | cons a tl ih =>
      unfold clearBackendFold
      by_cases hp : isCachePrefixed a
      · rw [if_pos hp]
        apply ih
        by_cases hka : k = a
        · subst hka
          exact dictGet_dictDelete_self d k
        · rw [dictGet_dictDelete_ne d a k hka]
          exact h
      · rw [if_neg hp]
        exact ih _ h

theorem clearBackendFold_get_prefixed (ks : List String) (d : Dict V)
    (k : String) (hp : isCachePrefixed k = true)
    (hmem : k ∈ ks ∨ dictGet d k = none) :
    dictGet (clearBackendFold d ks) k = none := by
  induction ks generalizing d with
  | nil =>
      rcases hmem with h | h
      · cases h
      · exact h
  | cons a tl ih =>
      unfold clearBackendFold
      rcases hmem with h | h
      · rcases List.mem_cons.mp h with rfl | hmem'
        · rw [if_pos hp]
          exact clearBackendFold_get_none tl _ k (dictGet_dictDelete_self d k)
        · exact ih _ (Or.inl hmem')
      · apply clearBackendFold_get_none
        by_cases hpa : isCachePrefixed a
        · rw [if_pos hpa]
          by_cases hka : k = a
          · subst hka
            exact dictGet_dictDelete_self d k
          · rw [dictGet_dictDelete_ne d a k hka]
            exact h
        · rw [if_neg hpa]
          exact h

/-- C7 (confirmed): `clear()` empties the hot map and the LRU list,
resets the hit/miss/eviction statistics to zero, and deletes exactly the
`cache_`-prefixed keys from the backend: every prefixed key is gone,
while every non-prefixed key still looks up to the same value as
before. -/
theorem c7_clear_isolation (s : CachedStorage V) (k1 k2 : String)
    (h1 : isCachePrefixed k1 = true)
    (h2 : isCachePrefixed k2 = false) :
    (s.clear).cache = [] ∧ (s.clear).access_order = [] ∧
    (s.clear).hits = 0 ∧ (s.clear).misses = 0 ∧ (s.clear).evictions = 0 ∧
    dictGet (s.clear).backend k1 = none ∧
    dictGet (s.clear).backend k2 = dictGet s.backend k2 := by
  refine ⟨rfl, rfl, rfl, rfl, rfl, ?_, ?_⟩
  · show dictGet (clearBackendFold s.backend (dictKeys s.backend)) k1 = none
    apply clearBackendFold_get_prefixed _ _ _ h1
    cases hb : dictGet s.backend k1 with
    | some v => exact Or.inl (dictGet_mem_dictKeys _ _ _ hb)
    | none => exact Or.inr rfl
  · exact clearBackendFold_get_of_not_prefixed _ _ _ h2

/-- Witness for C7: clearing a concrete cache whose backend holds both a
cache entry and a foreign key `"other"` removes only the former. -/
theorem c7_witness :
    (c7State.clear).cache = [] ∧ (c7State.clear).access_order = [] ∧
    (c7State.clear).hits = 0 ∧ (c7State.clear).misses = 0 ∧
    (c7State.clear).evictions = 0 ∧
    dictGet (c7State.clear).backend (getCacheKey "a") = none ∧
    dictGet (c7State.clear).backend "other" = dictGet c7State.backend "other" :=
  c7_clear_isolation c7State (getCacheKey "a") "other" (by decide) (by decide)

theorem runCallbacks_invoked (cs : List CleanupCallback) :
    (runCallbacks cs).1 = cs.map (·.id) := by
  induction cs with
  | nil => rfl
  | cons c rest ih => simp [runCallbacks, ih]

/-- C8 (confirmed): whenever the sampled usage percent is at least the
threshold (and the sampler is available), `should_cleanup()` is true and
the monitor cycle triggers a cleanup whose invocation list is exactly the
registered callbacks' ids in registration order — each invoked exactly
once, raising callbacks included (their exceptions are caught, not
propagated) — after which the garbage-collection pass runs and the
cleanup timestamp is recorded. -/
theorem c8_memory_pressure (hasPsutil : Bool) (sampled threshold : ℚ)
    (callbacks : List CleanupCallback) (now : Nat)
    (hps : hasPsutil = true) (hth : threshold ≤ sampled) :
    MemoryMonitor.shouldCleanup hasPsutil sampled threshold = true ∧
    ∃ r, MemoryMonitor.monitorCycle hasPsutil sampled threshold callbacks now =
        some r ∧
      r.invoked = callbacks.map (·.id) ∧
      r.gc_collected = true ∧ r.last_cleanup = some now := by
  subst hps
  have hsc : MemoryMonitor.shouldCleanup true sampled threshold = true := by
    simp [MemoryMonitor.shouldCleanup, hth]
  refine ⟨hsc, MemoryMonitor.triggerCleanup callbacks now, ?_, ?_, rfl, rfl⟩
  · simp [MemoryMonitor.monitorCycle, hsc]
  · exact runCallbacks_invoked callbacks

/-- Witness for C8: usage 90% against threshold 80%, three callbacks of
which the middle one raises; all three are invoked in order. -/
theorem c8_witness :
    MemoryMonitor.shouldCleanup true 90 80 = true ∧
    ∃ r, MemoryMonitor.monitorCycle true 90 80
        [⟨1, false⟩, ⟨2, true⟩, ⟨3, false⟩] 42 = some r ∧
      r.invoked = [1, 2, 3] ∧ r.gc_collected = true ∧ r.last_cleanup = some 42 :=
  c8_memory_pressure true 90 80 [⟨1, false⟩, ⟨2, true⟩, ⟨3, false⟩] 42 rfl
    (by decide)

/-- C9 (confirmed): compression round-trips.  With the external `pickle`,
`json` and `gzip` primitives abstracted as codec parameters satisfying
their documented round-trip laws at `v`, any value accepted by
`should_compress` (indeed any value at all) satisfies
`decompress(compress(v)) = v` for both the generic pickle+gzip compressor
and the JSON-specialized compressor: `compress` stores the gzip of the
serialized bytes in `compressed_data` and `decompress` inverts exactly
that field. -/
theorem c9_roundtrip {α : Type} (pickleDumps : α → List Nat)
    (pickleLoads : List Nat → Option α) (jsonDumps : α → List Nat)
    (jsonLoads : List Nat → Option α)
    (gzipCompress : Nat → List Nat → List Nat)
    (gzipDecompress : List Nat → Option (List Nat))
    (cfg : CompressedCacheConfig) (sizeof : α → Nat) (v : α)
    (_hsize : CompressedCache.shouldCompress cfg (sizeof v) = true)
    (hgzip : ∀ bs, gzipDecompress (gzipCompress cfg.compression_level bs) = some bs)
    (hpickle : pickleLoads (pickleDumps v) = some v)
    (hjson : jsonLoads (jsonDumps v) = some v) :
    CompressedCache.decompress pickleLoads gzipDecompress
      (CompressedCache.compress pickleDumps gzipCompress cfg v) = some v ∧
    JsonCompressedCache.decompress jsonLoads gzipDecompress
      (JsonCompressedCache.compress jsonDumps gzipCompress cfg v) = some v := by
  constructor
  · simp [CompressedCache.decompress, CompressedCache.compress, hgzip, hpickle]
  · simp [JsonCompressedCache.decompress, JsonCompressedCache.compress, hgzip,
          hjson]

/-- Witness for C9: a concrete instantiation of the codec parameters
(singleton-list serializers, identity byte compressor) at an accepted
size. -/
theorem c9_witness :
    CompressedCache.decompress (fun l => l.head?) (fun bs => some bs)
      (CompressedCache.compress (fun n => [n]) (fun _ bs => bs)
        ⟨1024, 6, 5242880⟩ (7 : Nat)) = some 7 ∧
    JsonCompressedCache.decompress (fun l => l.head?) (fun bs => some bs)
      (JsonCompressedCache.compress (fun n => [n]) (fun _ bs => bs)
        ⟨1024, 6, 5242880⟩ (7 : Nat)) = some 7 :=
  c9_roundtrip (fun n => [n]) (fun l => l.head?) (fun n => [n])
    (fun l => l.head?) (fun _ bs => bs) (fun bs => some bs)
    ⟨1024, 6, 5242880⟩ (fun _ => 2048) 7 (by decide) (fun bs => rfl) rfl rfl

/-- C6 (code bug): `PickleFileBackend.clear` empties only the in-memory
dict and never rewrites the file (the `self._save()` in the source is
unreachable, placed after the `return` of `keys()`), so a new backend
constructed over the same file loads the pre-clear mapping rather than an
empty one.  `set` does persist, as the first conjunct shows. -/
theorem c6_code_bug :
    c6Backend.file = some [("k", 1)] ∧
    (c6Backend.clear).data = [] ∧
    (c6Backend.clear).file = some [("k", 1)] ∧
    (pickleOpen ((c6Backend.clear).file)).data = [("k", 1)] := by
  decide

theorem set_cache_eq (s : CachedStorage V) (now : Nat) (key : String)
    (value : V) (ttl : Option Nat) :
    (s.set now key value ttl).cache =
      dictSet s.ensureCacheSpace.cache (getCacheKey key)
        (setEntry s now value ttl) := rfl

theorem set_backend_eq (s : CachedStorage V) (now : Nat) (key : String)
    (value : V) (ttl : Option Nat) :
    (s.set now key value ttl).backend =
      dictSet s.ensureCacheSpace.backend (getCacheKey key)
        (setEntry s now value ttl) := rfl

theorem set_access_order_eq (s : CachedStorage V) (now : Nat) (key : String)
    (value : V) (ttl : Option Nat) :
    (s.set now key value ttl).access_order =
      listRemove s.ensureCacheSpace.access_order (getCacheKey key) ++
        [getCacheKey key] := rfl

theorem set_max_entries_eq (s : CachedStorage V) (now : Nat) (key : String)
    (value : V) (ttl : Option Nat) :
    (s.set now key value ttl).max_entries = s.ensureCacheSpace.max_entries := rfl

theorem foldl_evictStep_fields (ks : List String) (s : CachedStorage V) :
    (ks.foldl CachedStorage.evictStep s).backend = s.backend ∧
    (ks.foldl CachedStorage.evictStep s).max_entries = s.max_entries ∧
    (ks.foldl CachedStorage.evictStep s).default_ttl = s.default_ttl := by
  induction ks generalizing s with
  | nil => exact ⟨rfl, rfl, rfl⟩
  | cons a tl ih => exact ih (s.evictStep a)

theorem cleanupLru_eq_foldl (s : CachedStorage V) (count : Nat) :
    s.cleanupLru (some count) =
      (s.access_order.take count).foldl CachedStorage.evictStep s := rfl

theorem ensureCacheSpace_fields (s : CachedStorage V) :
    s.ensureCacheSpace.backend = s.backend ∧
    s.ensureCacheSpace.max_entries = s.max_entries ∧
    s.ensureCacheSpace.default_ttl = s.default_ttl := by
  unfold CachedStorage.ensureCacheSpace
  split
  · exact foldl_evictStep_fields _ s
  · exact ⟨rfl, rfl, rfl⟩

theorem lruWF_removeFromCache (s : CachedStorage V) (k : String)
    (h : LruWF s) : LruWF (s.removeFromCache k) := by
  obtain ⟨hnd, hmem⟩ := h
  refine ⟨listRemove_nodup _ _ hnd, ?_⟩
  intro k'
  show k' ∈ listRemove s.access_order k ↔
    (dictGet (dictDelete s.cache k) k').isSome = true
  rw [mem_listRemove _ _ _ hnd]
  by_cases hkk : k' = k
  · subst hkk
    simp [dictGet_dictDelete_self]
  · rw [dictGet_dictDelete_ne _ _ _ hkk, ← hmem k']
    simp [hkk]

theorem lruWF_evictStep (s : CachedStorage V) (k : String) (h : LruWF s) :
    LruWF (s.evictStep k) :=
  lruWF_removeFromCache s k h

theorem lruWF_foldl_evictStep (ks : List String) (s : CachedStorage V)
    (h : LruWF s) : LruWF (ks.foldl CachedStorage.evictStep s) := by
  induction ks generalizing s with
  | nil => exact h
  | cons a tl ih => exact ih (s.evictStep a) (lruWF_evictStep s a h)

theorem foldl_evictStep_cache_length_le (ks : List String) (s : CachedStorage V) :
    (ks.foldl CachedStorage.evictStep s).cache.length ≤ s.cache.length := by
  induction ks generalizing s with
  | nil => exact le_rfl
  | cons a tl ih =>
      calc ((a :: tl).foldl CachedStorage.evictStep s).cache.length
          ≤ (s.evictStep a).cache.length := ih (s.evictStep a)
        _ ≤ s.cache.length := dictDelete_length_le s.cache a

theorem ensure_shrinks (m : Nat) (hm : 0 < m) (s : CachedStorage V)
    (hwf : LruWF s) (hlen : s.cache.length ≤ m) (hmax : s.max_entries = m) :
    LruWF s.ensureCacheSpace ∧ s.ensureCacheSpace.cache.length < m := by
  unfold CachedStorage.ensureCacheSpace
  split
  case isTrue hcond =>
    have hlenm : s.cache.length = m := le_antisymm hlen (hmax ▸ hcond)
    have hmin : min 10 (s.cache.length - s.max_entries + 1) = 1 := by
      rw [hmax, hlenm]
      simp
    rw [hmin, cleanupLru_eq_foldl]
    obtain ⟨p, rest, hps⟩ : ∃ p rest, s.cache = p :: rest := by
      cases hc : s.cache with
      | nil => rw [hc] at hlenm; simp at hlenm; omega
      | cons p rest => exact ⟨p, rest, rfl⟩
    have hp1 : (dictGet s.cache p.1).isSome = true := by
      rw [hps]
      show (dictGet (p :: rest) p.1).isSome = true
      obtain ⟨k₀, v₀⟩ := p
      simp [dictGet]
    have horder : p.1 ∈ s.access_order := (hwf.2 p.1).mpr hp1
    obtain ⟨h₀, tl, hos⟩ : ∃ h₀ tl, s.access_order = h₀ :: tl := by
      cases ho : s.access_order with
      | nil => rw [ho] at horder; cases horder
      | cons h₀ tl => exact ⟨h₀, tl, rfl⟩
    rw [hos]
    show LruWF ([h₀].foldl CachedStorage.evictStep s) ∧
      ([h₀].foldl CachedStorage.evictStep s).cache.length < m
    have hh₀ : (dictGet s.cache h₀).isSome = true :=
      (hwf.2 h₀).mp (by rw [hos]; exact List.mem_cons_self h₀ tl)
    constructor
    · exact lruWF_foldl_evictStep [h₀] s hwf
    · show (s.evictStep h₀).cache.length < m
      have := dictDelete_length_lt s.cache h₀ (by
        unfold dictContains
        exact hh₀)
      show (dictDelete s.cache h₀).length < m
      omega
  case isFalse hcond =>
    rw [hmax] at hcond
    exact ⟨hwf, by omega⟩

theorem inv_set (m : Nat) (hm : 0 < m) (s : CachedStorage V) (now : Nat)
    (key : String) (value : V) (ttl : Option Nat)
    (h : LruWF s ∧ s.cache.length ≤ m ∧ s.max_entries = m) :
    LruWF (s.set now key value ttl) ∧
    (s.set now key value ttl).cache.length ≤ m ∧
    (s.set now key value ttl).max_entries = m := by
  obtain ⟨hwf, hlen, hmax⟩ := h
  obtain ⟨hwf1, hlen1⟩ := ensure_shrinks m hm s hwf hlen hmax
  set s1 := s.ensureCacheSpace with hs1
  refine ⟨⟨?_, ?_⟩, ?_, ?_⟩
  · rw [set_access_order_eq]
    refine List.nodup_append.mpr ⟨listRemove_nodup _ _ hwf1.1, List.nodup_singleton _, ?_⟩
    intro x hx hx'
    rw [List.mem_singleton] at hx'
    subst hx'
    exact not_mem_listRemove_self _ _ hwf1.1 hx
  · intro k'
    rw [set_access_order_eq, set_cache_eq, List.mem_append, List.mem_singleton,
        mem_listRemove _ _ _ hwf1.1]
    by_cases hkk : k' = getCacheKey key
    · subst hkk
      simp [dictGet_dictSet_self]
    · rw [dictGet_dictSet_ne _ _ _ _ hkk, ← hwf1.2 k']
      simp [hkk]
  · rw [set_cache_eq, ← hs1]
    have := dictSet_length_le s1.cache (getCacheKey key) (setEntry s now value ttl)
    omega
  · rw [set_max_entries_eq, ← hs1, (ensureCacheSpace_fields s).2.1, hmax]

theorem inv_runSets (m : Nat) (hm : 0 < m) (ops : List (SetCall V))
    (s : CachedStorage V)
    (h : LruWF s ∧ s.cache.length ≤ m ∧ s.max_entries = m) :
    LruWF (s.runSets ops) ∧ (s.runSets ops).cache.length ≤ m ∧
    (s.runSets ops).max_entries = m := by
  induction ops generalizing s with
  | nil => exact h
  | cons op tl ih =>
      exact ih (s.set op.now op.key op.value op.ttl)
        (inv_set m hm s op.now op.key op.value op.ttl h)

/-- C4 (confirmed): for every sequence of `set` calls (any keys, values
and TTLs) applied from a freshly constructed cache (empty hot map) over
any backend with positive capacity `m`, the hot map holds at most `m`
entries when each `set` returns: `_ensure_cache_space` evicts before
insertion and keeps the ceiling. -/
theorem c4_set_capacity (V : Type) (b : Dict (CacheEntry V)) (dttl m : Nat)
    (ops : List (SetCall V)) (hm : 0 < m) :
    ((CachedStorage.init V b dttl m).runSets ops).cache.length ≤ m := by
  refine (inv_runSets m hm ops (CachedStorage.init V b dttl m)
    ⟨⟨List.nodup_nil, ?_⟩, ?_, rfl⟩).2.1
  · intro k
    simp [CachedStorage.init, dictGet]
  · simp [CachedStorage.init]

/-- Witness for C4: three inserts into a capacity-2 cache leave at most 2
hot entries. -/
theorem c4_witness :
    0 < 2 ∧
    ((CachedStorage.init Nat [] 3600 2).runSets
      [⟨0, "a", 1, none⟩, ⟨1, "b", 2, none⟩, ⟨2, "c", 3, none⟩]).cache.length ≤ 2 :=
  ⟨by decide,
   c4_set_capacity Nat [] 3600 2
     [⟨0, "a", 1, none⟩, ⟨1, "b", 2, none⟩, ⟨2, "c", 3, none⟩] (by decide)⟩

theorem hotSubset_removeFromCache (s : CachedStorage V) (k : String)
    (h : HotSubset s) : HotSubset (s.removeFromCache k) := by
  intro k' hk'
  show (dictGet s.backend k').isSome = true
  have hck : (s.removeFromCache k).cache = dictDelete s.cache k := rfl
  by_cases hkk : k' = k
  · subst hkk
    rw [hck, dictGet_dictDelete_self] at hk'
    simp at hk'
  · exact h k' (by rwa [hck, dictGet_dictDelete_ne _ _ _ hkk] at hk')

theorem hotSubset_evictStep (s : CachedStorage V) (k : String)
    (h : HotSubset s) : HotSubset (s.evictStep k) :=
  hotSubset_removeFromCache s k h

theorem hotSubset_foldl_evictStep (ks : List String) (s : CachedStorage V)
    (h : HotSubset s) : HotSubset (ks.foldl CachedStorage.evictStep s) := by
  induction ks generalizing s with
  | nil => exact h
  | cons a tl ih => exact ih (s.evictStep a) (hotSubset_evictStep s a h)

theorem hotSubset_foldl_removeFromCache (ks : List String) (s : CachedStorage V)
    (h : HotSubset s) : HotSubset (ks.foldl CachedStorage.removeFromCache s) := by
  induction ks generalizing s with
  | nil => exact h
  | cons a tl ih =>
      exact ih (s.removeFromCache a) (hotSubset_removeFromCache s a h)

theorem hotSubset_ensure (s : CachedStorage V) (h : HotSubset s) :
    HotSubset s.ensureCacheSpace := by
  unfold CachedStorage.ensureCacheSpace
  split
  · exact hotSubset_foldl_evictStep _ s h
  · exact h

theorem hotSubset_set (s : CachedStorage V) (now : Nat) (key : String)
    (value : V) (ttl : Option Nat) (h : HotSubset s) :
    HotSubset (s.set now key value ttl) := by
  have h1 : HotSubset s.ensureCacheSpace := hotSubset_ensure s h
  have hbk : s.ensureCacheSpace.backend = s.backend :=
    (ensureCacheSpace_fields s).1
  intro k hk
  rw [set_cache_eq] at hk
  rw [set_backend_eq]
  by_cases hkk : k = getCacheKey key
  · subst hkk
    rw [dictGet_dictSet_self]
    rfl
  · rw [dictGet_dictSet_ne _ _ _ _ hkk] at hk ⊢
    exact h1 k hk

theorem hotSubset_getFromBackend (s : CachedStorage V) (now : Nat)
    (cache_key : String) (h : HotSubset s) :
    HotSubset (s.getFromBackend now cache_key).2 := by
  unfold CachedStorage.getFromBackend
  cases hb : dictGet s.backend cache_key with
  | some d =>
      by_cases hd : isExpired now d
      · simpa [hb, hd] using h
      · simp only [hb, hd]
        intro k hk
        simp only [Bool.false_eq_true, if_false]
        show (dictGet s.backend k).isSome = true
        by_cases hkk : k = cache_key
        · subst hkk
          rw [hb]
          rfl
        · refine h k ?_
          have : (dictGet (dictSet s.cache cache_key d) k).isSome = true := by
            simpa [hb, hd] using hk
          rwa [dictGet_dictSet_ne _ _ _ _ hkk] at this
  | none => simpa [hb] using h

theorem hotSubset_get (s : CachedStorage V) (now : Nat) (key : String)
    (h : HotSubset s) : HotSubset (s.get now key).2 := by
  unfold CachedStorage.get
  cases hc : dictGet s.cache (getCacheKey key) with
  | some e =>
      by_cases he : isExpired now e
      · simp only [hc, he, if_true]
        exact hotSubset_getFromBackend _ now _
          (hotSubset_removeFromCache s (getCacheKey key) h)
      · simpa [hc, he] using h
  | none =>
      simp only [hc]
      exact hotSubset_getFromBackend s now _ h

theorem hotSubset_delete (s : CachedStorage V) (key : String)
    (h : HotSubset s) : HotSubset (s.delete key).2 := by
  intro k hk
  have hck : ((s.delete key).2).cache = dictDelete s.cache (getCacheKey key) :=
    rfl
  show (dictGet (dictDelete s.backend (getCacheKey key)) k).isSome = true
  by_cases hkk : k = getCacheKey key
  · subst hkk
    rw [hck, dictGet_dictDelete_self] at hk
    simp at hk
  · rw [dictGet_dictDelete_ne _ _ _ hkk]
    exact h k (by rwa [hck, dictGet_dictDelete_ne _ _ _ hkk] at hk)

theorem hotSubset_clear (s : CachedStorage V) : HotSubset s.clear := by
  intro k hk
  have hck : (s.clear).cache = ([] : Dict (CacheEntry V)) := rfl
  rw [hck] at hk
  simp [dictGet] at hk

theorem hotSubset_cleanupExpired (s : CachedStorage V) (now : Nat)
    (h : HotSubset s) : HotSubset (s.cleanupExpired now) :=
  hotSubset_foldl_removeFromCache _ s h

theorem hotSubset_cleanupLru (s : CachedStorage V) (count : Option Nat)
    (h : HotSubset s) : HotSubset (s.cleanupLru count) :=
  hotSubset_foldl_evictStep _ s h

theorem hotSubset_run (s : CachedStorage V) (op : CacheOp V)
    (h : HotSubset s) : HotSubset (s.run op) := by
  cases op with
  | get now key => exact hotSubset_get s now key h
  | set now key value ttl => exact hotSubset_set s now key value ttl h
  | delete key => exact hotSubset_delete s key h
  | clear => exact hotSubset_clear s
  | cleanupExpired now => exact hotSubset_cleanupExpired s now h
  | cleanupLru count => exact hotSubset_cleanupLru s count h

theorem hotSubset_runOps (ops : List (CacheOp V)) (s : CachedStorage V)
    (h : HotSubset s) : HotSubset (ops.foldl CachedStorage.run s) := by
  induction ops generalizing s with
  | nil => exact h
  | cons op tl ih => exact ih (s.run op) (hotSubset_run s op h)

/-- C10 (confirmed): the hot map is a subset of the backend.  For every
sequence of public operations (`get`, `set`, `delete`, `clear`,
`cleanup_expired`, `cleanup_lru`) applied from an empty cache over an
empty backend, every key the hot map holds when the sequence finishes is
also present in the backend: `set` writes both tiers, restoration needs a
backend entry, and `delete`/`clear` remove from both. -/
theorem c10_hot_subset (V : Type) (dttl m : Nat) (ops : List (CacheOp V))
    (k : String)
    (h : (dictGet (ops.foldl CachedStorage.run
        (CachedStorage.init V [] dttl m)).cache k).isSome = true) :
    (dictGet (ops.foldl CachedStorage.run
        (CachedStorage.init V [] dttl m)).backend k).isSome = true := by
  refine hotSubset_runOps ops (CachedStorage.init V [] dttl m) ?_ k h
  intro k' hk'
  simp [CachedStorage.init, dictGet] at hk'

/-- Witness for C10: after a concrete mixed operation sequence the hot
map holds `cache_a` (discharging the hypothesis by evaluation), so the
backend holds it too. -/
theorem c10_witness :
    (dictGet ([CacheOp.set 0 "a" (5 : Nat) none, CacheOp.get 1 "a",
        CacheOp.set 1 "b" 6 none, CacheOp.delete "b"].foldl CachedStorage.run
        (CachedStorage.init Nat [] 3600 2)).backend (getCacheKey "a")).isSome =
      true :=
  c10_hot_subset Nat 3600 2
    [CacheOp.set 0 "a" 5 none, CacheOp.get 1 "a", CacheOp.set 1 "b" 6 none,
     CacheOp.delete "b"] (getCacheKey "a") (by decide)

end ModularDashboard
